import Mathlib

/-!
Shallow embedding of `src/app_facturas.py` (invoice classifier).

Monetary values are modelled as exact rationals (`ℚ`); the Python code uses
floats, but every comparison the claims exercise is at exact decimal inputs
where float and rational semantics agree.  Cell values of a table are the
closed variant {absent, number, string}.
-/

namespace AppFacturas

/-- A raw cell value: Python `None`/NaN, a numeric value, or a string. -/
inductive Cell where
  | absent : Cell
  | num : ℚ → Cell
  | str : String → Cell
deriving DecidableEq, Repr

/-- Characters kept by the regex `[^\d,.\-]` deletion in `_to_number`:
digits, comma, period and minus sign. -/
def keepChar (c : Char) : Bool :=
  c.isDigit || c = ',' || c = '.' || c = '-'

/-- `re.sub(r"[^\d,.\-]", "", s)`: delete every char that is not a digit,
comma, period or minus. -/
def cleanChars (l : List Char) : List Char :=
  l.filter keepChar

/-- Index of the last occurrence of `c` in the list (`str.rfind`),
`none` when absent. -/
def lastIndexOf (c : Char) : List Char → Option Nat
  | [] => none
  | x :: t =>
    match lastIndexOf c t with
    | some i => some (i + 1)
    | none => if x = c then some 0 else none

/-- The separator-disambiguation step of `_to_number`: when both comma and
period occur, the one occurring later is the decimal point (the other is
removed); a lone comma becomes the decimal point. -/
def sepResolve (l : List Char) : List Char :=
  if ',' ∈ l ∧ '.' ∈ l then
    if (lastIndexOf ',' l).getD 0 > (lastIndexOf '.' l).getD 0 then
      (l.filter (fun c => c ≠ '.')).map (fun c => if c = ',' then '.' else c)
    else
      l.filter (fun c => c ≠ ',')
  else if ',' ∈ l then
    l.map (fun c => if c = ',' then '.' else c)
  else
    l

/-- Numeric value of a digit list read as an integer part. -/
def intVal (l : List Char) : ℚ :=
  l.foldl (fun acc c => 10 * acc + ((c.toNat : ℚ) - 48)) 0

/-- Numeric value of a digit list read as a fractional part. -/
def fracVal (l : List Char) : ℚ :=
  l.foldr (fun c acc => (((c.toNat : ℚ) - 48) + acc) / 10) 0

/-- Split a char list at its first period: integer part and, when a period
occurs, the remainder after it. -/
def splitDot : List Char → List Char × Option (List Char)
  | [] => ([], none)
  | c :: t =>
    if c = '.' then ([], some t)
    else
      let p := splitDot t
      (c :: p.1, p.2)

/-- Is the first character a minus sign? -/
def headIsMinus : List Char → Bool
  | c :: _ => c = '-'
  | [] => false

/-- Python `float(s)` restricted to strings over digits, `.` and `-` (the
only characters that survive cleaning): an optional leading minus, then
digits with at most one period and at least one digit; anything else fails. -/
def parseFloat (l : List Char) : Option ℚ :=
  let body := if headIsMinus l then l.tail else l
  let p := splitDot body
  let ok :=
    match p.2 with
    | none => !p.1.isEmpty && p.1.all Char.isDigit
    | some f => (p.1 ++ f).all Char.isDigit && !(p.1.isEmpty && f.isEmpty)
  if ok then
    let v :=
      match p.2 with
      | none => intVal p.1
      | some f => intVal p.1 + fracVal f
    some (if headIsMinus l then -v else v)
  else none

/-- `_to_number`: absent stays absent, numbers pass through, strings are
cleaned, separator-resolved and parsed; unparsable strings yield `none`. -/
def toNumber : Cell → Option ℚ
  | .absent => none
  | .num q => some q
  | .str s => parseFloat (sepResolve (cleanChars s.toList))

/-- One character of `str.startswith`-style matching: does `needle` occur
at the head of `hay`? -/
def startsWithL : List Char → List Char → Bool
  | [], _ => true
  | _ :: _, [] => false
  | a :: as, b :: bs => a = b && startsWithL as bs

/-- Substring containment (Python `needle in hay`). -/
def containsSub (needle : List Char) : List Char → Bool
  | [] => needle.isEmpty
  | b :: t => startsWithL needle (b :: t) || containsSub needle t

/-- Whitespace test matching Python `\s` on the characters that occur in
this program's data. -/
def isSpace (c : Char) : Bool :=
  c = ' ' || c = '\t' || c = '\n' || c = '\r'

/-- `str.strip()`: remove leading and trailing whitespace. -/
def stripL (l : List Char) : List Char :=
  ((l.dropWhile isSpace).reverse.dropWhile isSpace).reverse

/-- Python `str.lower()` on the characters this program's data uses:
ASCII letters plus the accented letters of the status vocabulary. -/
def lowerChar (c : Char) : Char :=
  if 'A' ≤ c ∧ c ≤ 'Z' then Char.ofNat (c.toNat + 32)
  else if c = 'Á' then 'á' else if c = 'É' then 'é' else if c = 'Í' then 'í'
  else if c = 'Ó' then 'ó' else if c = 'Ú' then 'ú' else if c = 'Ü' then 'ü'
  else if c = 'Ñ' then 'ñ' else c

/-- NFKD decomposition followed by ascii-encode-with-ignore, per character:
accented Latin letters reduce to their base letter, other non-ASCII
characters are dropped. -/
def foldChar (c : Char) : List Char :=
  if c = 'á' ∨ c = 'à' ∨ c = 'ä' ∨ c = 'â' then ['a']
  else if c = 'é' ∨ c = 'è' ∨ c = 'ë' ∨ c = 'ê' then ['e']
  else if c = 'í' ∨ c = 'ì' ∨ c = 'ï' ∨ c = 'î' then ['i']
  else if c = 'ó' ∨ c = 'ò' ∨ c = 'ö' ∨ c = 'ô' ∨ c = 'º' then ['o']
  else if c = 'ú' ∨ c = 'ù' ∨ c = 'ü' ∨ c = 'û' then ['u']
  else if c = 'ñ' then ['n']
  else if c.toNat < 128 then [c]
  else []

/-- Worker for whitespace collapsing: the flag records whether the previous
character was whitespace (in which case further whitespace is dropped). -/
def collapseWsAux : Bool → List Char → List Char
  | _, [] => []
  | inRun, c :: t =>
    if isSpace c then
      if inRun then collapseWsAux true t else ' ' :: collapseWsAux true t
    else c :: collapseWsAux false t

/-- Collapse every run of whitespace to a single space (`re.sub(r"\s+", " ", _)`). -/
def collapseWs (l : List Char) : List Char :=
  collapseWsAux false l

/-- `_normalize_text`: collapse whitespace runs of the stripped string,
then lowercase.  (No diacritic handling here.) -/
def normalizeText (s : String) : String :=
  ⟨(collapseWs (stripL s.toList)).map lowerChar⟩

/-- The normalisation applied to a status cell in `classify_by_status`:
strip, lowercase, then NFKD + ascii-ignore diacritic folding. -/
def statusKey (s : String) : String :=
  ⟨((stripL s.toList).map lowerChar).flatMap foldChar⟩

/-- The exact paid vocabulary of `classify_by_status` (`valores_pagadas`). -/
def valoresPagadas : List String :=
  ["pagada", "pagado", "cobrado", "cobrada", "si", "sí", "1", "true", "y", "yes"]

/-- The exact unpaid vocabulary of `classify_by_status` (`valores_no_pagadas`). -/
def valoresNoPagadas : List String :=
  ["no pagada", "no pagado", "impaga", "pendiente", "0", "false", "n", "no", ""]

/-- Result of classifying one status value: the paid bucket (`cobradas`),
the unpaid bucket (`no_cobradas`), or the undetermined bucket (`en_curso`). -/
inductive SClass where
  | paid : SClass
  | unpaid : SClass
  | undetermined : SClass
deriving DecidableEq, Repr

/-- Bucket of one status value in `classify_by_status`: exact membership of
the normalised value in each vocabulary set; rows matching neither go to
`en_curso`.  (The two sets are disjoint, so the membership tests are order
independent.) -/
def classifyStatusValue (v : String) : SClass :=
  let s := statusKey v
  if s ∈ valoresPagadas then .paid
  else if s ∈ valoresNoPagadas then .unpaid
  else .undetermined

/-- The three buckets of `classify_by_status` over the status values of a
record set, in source order: (`cobradas`, `en_curso`, `no_cobradas`). -/
def statusBuckets (rows : List String) : List String × List String × List String :=
  (rows.filter (fun v => classifyStatusValue v = .paid),
   rows.filter (fun v => classifyStatusValue v = .undetermined),
   rows.filter (fun v => classifyStatusValue v = .unpaid))

/-- The spec-side status vocabulary (paid terms) of spec §4.5, for
comparison with the code's `valoresPagadas`. -/
def specPaidVocab : List String :=
  ["pagada", "pagado", "cobrada", "cobrado", "paid", "si", "sí", "true", "1", "yes", "y"]

/-- The spec-side status vocabulary (unpaid terms) of spec §4.5, for
comparison with the code's `valoresNoPagadas`. -/
def specUnpaidVocab : List String :=
  ["no pagada", "no pagado", "no cobrada", "no cobrado", "impaga", "impago",
   "pendiente", "vencida", "atrasada", "unpaid", "no", "false", "0", ""]

/-- Does normalised `text` match vocabulary term `t` by the spec's
containment rule?  A non-empty term matches by substring containment; the
empty-string term matches only the empty text (plain containment of ""
would match everything, contradicting the spec's own examples). -/
def specTermMatches (t : String) (text : String) : Bool :=
  if t.isEmpty then text.isEmpty else containsSub t.toList text.toList

/-- The classifier the spec describes in §4.5 (substring containment with
negation priority), stated from the spec's words for comparison with the
code's `classifyStatusValue`. -/
def specStatusClassifier (v : String) : SClass :=
  let s := statusKey v
  if specUnpaidVocab.any (fun t => specTermMatches t s) then .unpaid
  else if specPaidVocab.any (fun t => specTermMatches t s) then .paid
  else .undetermined

/-- The parsed monetary triple of one record in `classify_by_amounts`
(the working columns `_total_`, `_pagado_`, `_pendiente_`); `none` is NaN. -/
structure Amounts where
  total : Option ℚ
  pagado : Option ℚ
  pendiente : Option ℚ
deriving DecidableEq, Repr

/-- First fill-in mask of `classify_by_amounts`: if `pagado` is missing and
`total`, `pendiente` are present, set `pagado := total - pendiente`. -/
def fillPagado (r : Amounts) : Amounts :=
  match r.pagado, r.total, r.pendiente with
  | none, some t, some d => { r with pagado := some (t - d) }
  | _, _, _ => r

/-- Second fill-in mask (runs after the first): if `pendiente` is missing
and `total`, `pagado` are present, set `pendiente := total - pagado`. -/
def fillPendiente (r : Amounts) : Amounts :=
  match r.pendiente, r.total, r.pagado with
  | none, some t, some p => { r with pendiente := some (t - p) }
  | _, _, _ => r

/-- Per-row reconciliation of `classify_by_amounts`: the two masks in
source order. -/
def reconcileRow (r : Amounts) : Amounts :=
  fillPendiente (fillPagado r)

/-- Rounding tolerance `eps = 0.01` of `classify_by_amounts`. -/
def eps : ℚ := 1 / 100

/-- Membership in the `cobradas` slice: total and pagado present and
`pagado >= total - eps`.  (A pandas comparison with NaN is false, hence the
`false` fallthrough.) -/
def isCobrada (r : Amounts) : Bool :=
  match r.total, r.pagado with
  | some t, some p => p ≥ t - eps
  | _, _ => false

/-- Membership in the `en_curso` slice: total and pagado present and
`eps < pagado < total - eps`. -/
def isEnCurso (r : Amounts) : Bool :=
  match r.total, r.pagado with
  | some t, some p => eps < p ∧ p < t - eps
  | _, _ => false

/-- Membership in the `no_cobradas` slice: total present and pagado absent
or `pagado <= eps`. -/
def isNoCobrada (r : Amounts) : Bool :=
  match r.total, r.pagado with
  | some _, some p => p ≤ eps
  | some _, none => true
  | none, _ => false

/-- The three partitions of `classify_by_amounts` over already-parsed rows:
reconcile each row, then slice by the three predicates, in source order
(`cobradas`, `en_curso`, `no_cobradas`). -/
def classifyAmountsRows (rows : List Amounts) :
    List Amounts × List Amounts × List Amounts :=
  let w := rows.map reconcileRow
  (w.filter isCobrada, w.filter isEnCurso, w.filter isNoCobrada)

/-- `total_candidates` of `classify_by_amounts`. -/
def totalCandidates : List String :=
  ["total", "importe", "monto", "amount", "total_factura", "importe_total"]

/-- `paid_candidates` of `classify_by_amounts`. -/
def paidCandidates : List String :=
  ["pagado", "abonado", "pago", "paid", "importe_pagado", "monto_pagado"]

/-- `pending_candidates` of `classify_by_amounts`. -/
def pendingCandidates : List String :=
  ["pendiente", "restante", "saldo", "due", "por_cobrar"]

/-- `find_col`: the first column (in schema order) whose normalised name
contains any candidate term. -/
def findCol (cands : List String) (cols : List String) : Option String :=
  cols.find? (fun c =>
    cands.any (fun cand => containsSub cand.toList (normalizeText c).toList))

/-- A raw record: column name to cell value, as handed to the classifier. -/
def RawRecord : Type := List (String × Cell)

/-- Cell of a record under a column name; a missing column reads as NaN. -/
def getCell (r : RawRecord) (c : String) : Cell :=
  ((r.find? (fun p => p.1 = c)).map Prod.snd).getD .absent

/-- `df[col].apply(_to_number)` over the optionally-resolved paid/pending
column: when no column resolved the working column is all-NaN. -/
def parsedCol (r : RawRecord) : Option String → Option ℚ
  | none => none
  | some c => toNumber (getCell r c)

/-- `classify_by_amounts` over a schema and records: `none` when no total
column resolves; otherwise the three partitions of the parsed and
reconciled rows.  (The `visible` projection back to display columns is
presentation and not modelled.) -/
def classifyByAmounts (cols : List String) (recs : List RawRecord) :
    Option (List Amounts × List Amounts × List Amounts) :=
  match findCol totalCandidates cols with
  | none => none
  | some ct =>
    let cp := findCol paidCandidates cols
    let cd := findCol pendingCandidates cols
    let rows := recs.map (fun r =>
      Amounts.mk (toNumber (getCell r ct)) (parsedCol r cp) (parsedCol r cd))
    some (classifyAmountsRows rows)

/-- Candidate status columns of `classify_by_status`: any column whose
lowercased name contains one of "estado", "status", "pag", "cob". -/
def statusCandidateCols (cols : List String) : List String :=
  cols.filter (fun c =>
    ["estado", "status", "pag", "cob"].any
      (fun x => containsSub x.toList (c.toList.map lowerChar)))

/-- pandas `astype(str)` on a cell: strings pass through, NaN renders as
"nan"; a numeric cell is rendered from the rational (stands in for the
Python float repr; no claim depends on this rendering). -/
def cellStr : Cell → String
  | .absent => "nan"
  | .num q => toString q
  | .str s => s

/-- `classify_by_status`: `none` when no candidate status column exists;
otherwise the buckets over the selected column (the `selectbox` defaults to
the first candidate).  Returns the chosen column and
(`cobradas`, `en_curso`, `no_cobradas`). -/
def classifyByStatus (cols : List String) (recs : List RawRecord) :
    Option (String × (List String × List String × List String)) :=
  match statusCandidateCols cols with
  | [] => none
  | c :: _ => some (c, statusBuckets (recs.map (fun r => cellStr (getCell r c))))

/-- Outcome of the module-level classification flow: amount mode, status
mode (with the chosen column), or the explicit no-basis failure
(`st.error(...)` followed by `st.stop()`). -/
inductive ClassifyOutcome where
  | amounts : List Amounts × List Amounts × List Amounts → ClassifyOutcome
  | status : String → List String × List String × List String → ClassifyOutcome
  | noBasis : ClassifyOutcome
deriving Repr

/-- The module-level flow: try `classify_by_amounts` first, fall back to
`classify_by_status`, and fail explicitly when both return `None`. -/
def classifyFlow (cols : List String) (recs : List RawRecord) : ClassifyOutcome :=
  match classifyByAmounts cols recs with
  | some p => .amounts p
  | none =>
    match classifyByStatus cols recs with
    | some (c, b) => .status c b
    | none => .noBasis

/-- ASCII uppercase. -/
def upperChar (c : Char) : Char :=
  if 'a' ≤ c ∧ c ≤ 'z' then Char.ofNat (c.toNat - 32) else c

/-- Split a character stream at newlines into lines. -/
def splitOnNl : List Char → List (List Char)
  | [] => [[]]
  | c :: t =>
    if c = '\n' then [] :: splitOnNl t
    else
      match splitOnNl t with
      | h :: r => (c :: h) :: r
      | [] => [[c]]

/-- Drop leading whitespace. -/
def skipSpaces (l : List Char) : List Char :=
  l.dropWhile isSpace

/-- Drop leading whitespace, colons and dashes (the optional separator
after an extraction label). -/
def skipSep (l : List Char) : List Char :=
  l.dropWhile (fun c => isSpace c || c = ':' || c = '-')

/-- Suffix of `l` after the first case-insensitive occurrence of `key`
(`key` given lowercase), or `none` when `key` does not occur. -/
def dropAfterKey (key : List Char) : List Char → Option (List Char)
  | [] => if key.isEmpty then some [] else none
  | c :: t =>
    if startsWithL key ((c :: t).map lowerChar) then some ((c :: t).drop key.length)
    else dropAfterKey key t

/-- First key of `keys` occurring in the line, with the suffix after it. -/
def captureInLine (keys : List String) (ln : List Char) : Option (List Char) :=
  match keys with
  | [] => none
  | k :: ks =>
    match dropAfterKey k.toList ln with
    | some r => some r
    | none => captureInLine ks ln

/-- First line (in document order) where some key occurs, with the suffix
after the key: first-match-wins per field. -/
def firstCapture (keys : List String) : List (List Char) → Option (List Char)
  | [] => none
  | ln :: rest =>
    match captureInLine keys ln with
    | some r => some r
    | none => firstCapture keys rest

/-- Modelled from the spec (§4.6): the invoice-number rule of the Document
Field Extractor, which is not present in `src/` (`read_pdf_tables` only
extracts tables).  After "factura", skip an optional "nº"/"n°"/"no."
marker and optional colon/dash, capture the next token, uppercase it;
fallback "UNKNOWN". -/
def extractInvoiceNumber (lines : List (List Char)) : String :=
  match firstCapture ["factura"] lines with
  | none => "UNKNOWN"
  | some rest =>
    let r1 := skipSpaces rest
    let r2 :=
      if startsWithL "nº".toList (r1.map lowerChar) then r1.drop 2
      else if startsWithL "n°".toList (r1.map lowerChar) then r1.drop 2
      else if startsWithL "no.".toList (r1.map lowerChar) then r1.drop 3
      else r1
    let tok := (skipSep r2).takeWhile (fun c => ¬ isSpace c)
    if tok.isEmpty then "UNKNOWN" else ⟨tok.map upperChar⟩

/-- Modelled from the spec (§4.6): the client rule — "cliente" or
"razón social" followed by colon/dash, rest of that line; fallback
"UNKNOWN". -/
def extractClient (lines : List (List Char)) : String :=
  match firstCapture ["cliente", "razón social"] lines with
  | none => "UNKNOWN"
  | some rest => ⟨stripL (skipSep rest)⟩

/-- Modelled from the spec (§4.5/§4.6): the status text-inference micro-step
— vocabulary containment with negation priority, returning only
"Unpaid"/"Paid".  A non-empty vocabulary term matches by substring
containment of the normalised text; the empty-string term matches only the
empty text (plain containment of "" would match every text, contradicting
the spec's own examples). -/
def inferStatusText (txt : String) : Option String :=
  let s := statusKey txt
  if specUnpaidVocab.any (fun t => !t.isEmpty && containsSub t.toList s.toList) then
    some "Unpaid"
  else if specPaidVocab.any (fun t => !t.isEmpty && containsSub t.toList s.toList) then
    some "Paid"
  else none

/-- Modelled from the spec (§4.6): the status rule — a line labelled
"estado"/"situación"/"pago" is captured and run through text inference,
keeping the raw phrase when inference fails; with no labelled line,
whole-document inference; failing that, "Undetermined". -/
def extractStatus (lines : List (List Char)) (text : String) : String :=
  match firstCapture ["estado", "situación", "pago"] lines with
  | some rest =>
    let phrase : String := ⟨stripL (skipSep rest)⟩
    match inferStatusText phrase with
    | some r => r
    | none => phrase
  | none =>
    match inferStatusText text with
    | some r => r
    | none => "Undetermined"

/-- Modelled from the spec (§4.6): the amount rule's captured digit run —
after "total" (optionally "a pagar") or "importe", optional colon/dash and
currency symbol, the first digit/separator run. -/
def amountCapture (lines : List (List Char)) : Option String :=
  match firstCapture ["total", "importe"] lines with
  | none => none
  | some rest =>
    let r1 := skipSpaces rest
    let r2 :=
      if startsWithL "a pagar".toList (r1.map lowerChar) then r1.drop 7 else r1
    let run := ((skipSep r2).dropWhile (fun c => ¬ c.isDigit)).takeWhile
      (fun c => c.isDigit || c = ',' || c = '.')
    some ⟨run⟩

/-- The spec's document-extraction example text (§8). -/
def exampleDoc : String :=
  "Factura Nº: A-001\nCliente: ACME\nEstado: No pagada\nTotal: 1.234,56€"

/-- Single-record output of the Document Field Extractor (spec §3). -/
structure ExtractedInvoice where
  invoiceNumber : String
  client : String
  status : String
  amount : ℚ
  source : String
deriving DecidableEq, Repr

/-- Modelled from the spec (§4.6): the Document Field Extractor over the
concatenated page text, each field extracted independently with its own
fallback (invoiceNumber → "UNKNOWN", client → "UNKNOWN",
status → "Undetermined", amount → 0). -/
def extractInvoice (text : String) : ExtractedInvoice :=
  let lines := splitOnNl text.toList
  { invoiceNumber := extractInvoiceNumber lines
    client := extractClient lines
    status := extractStatus lines text
    amount :=
      match amountCapture lines with
      | none => 0
      | some s => (toNumber (.str s)).getD 0
    source := "document" }

end AppFacturas

namespace AppFacturas

example : toNumber (.str "1.234,56") = some (123456 / 100) := by
  simp [toNumber, parseFloat, headIsMinus, splitDot, sepResolve, cleanChars, keepChar, lastIndexOf,
    intVal, fracVal, String.toList, String.data]
  norm_num
example : toNumber (.str "1,234.56") = some (123456 / 100) := by
  simp [toNumber, parseFloat, headIsMinus, splitDot, sepResolve, cleanChars, keepChar, lastIndexOf,
    intVal, fracVal, String.toList, String.data]
  norm_num
example : toNumber (.str "1,23") = some (123 / 100) := by
  simp [toNumber, parseFloat, headIsMinus, splitDot, sepResolve, cleanChars, keepChar, lastIndexOf,
    intVal, fracVal, String.toList, String.data]
  norm_num
example : toNumber (.str "") = none := by
  simp [toNumber, parseFloat, headIsMinus, splitDot, sepResolve, cleanChars, keepChar, lastIndexOf,
    String.toList, String.data]
example : toNumber (.str "abc") = none := by
  simp [toNumber, parseFloat, headIsMinus, splitDot, sepResolve, cleanChars, keepChar, lastIndexOf,
    String.toList, String.data]
example : toNumber (.str "-12,5 €") = some (-25 / 2) := by
  simp [toNumber, parseFloat, headIsMinus, splitDot, sepResolve, cleanChars, keepChar, lastIndexOf,
    intVal, fracVal, String.toList, String.data]
  norm_num

example : classifyStatusValue "sí" = .paid := by decide
example : classifyStatusValue " Pagada " = .paid := by decide
example : classifyStatusValue "no pagada" = .unpaid := by decide
example : classifyStatusValue "en trámite" = .undetermined := by decide
example : classifyStatusValue "totalmente pagada" = .undetermined := by decide
example : specStatusClassifier "totalmente pagada" = .paid := by decide
example : specStatusClassifier "no pagada" = .unpaid := by decide
example : normalizeText "  Total   Factura " = "total factura" := by decide

end AppFacturas

namespace AppFacturas

lemma pagadas_noPagadas_disjoint (s : String) :
    s ∈ valoresPagadas → s ∈ valoresNoPagadas → False := by
  intro h1 h2
  simp only [valoresPagadas, List.mem_cons, List.not_mem_nil, or_false] at h1
  rcases h1 with rfl | rfl | rfl | rfl | rfl | rfl | rfl | rfl | rfl | rfl <;>
    exact absurd h2 (by decide)

lemma reconcileRow_total (r : Amounts) : (reconcileRow r).total = r.total := by
  rcases r with ⟨t, p, d⟩
  rcases t with _ | t <;> rcases p with _ | p <;> rcases d with _ | d <;> rfl

lemma statusBuckets_length (rows : List String) :
    (statusBuckets rows).1.length + (statusBuckets rows).2.1.length +
      (statusBuckets rows).2.2.length = rows.length := by
  induction rows with
  | nil => rfl
  | cons a l ih =>
    simp only [statusBuckets, List.filter_cons] at ih ⊢
    cases h : classifyStatusValue a <;> simp [h] <;> omega

/-- Claim C4: the Amount Parser is total and never raises: absent input,
the empty string and any string whose cleaned form does not parse as a
decimal number yield the absent result.  (Totality is by type: `toNumber`
is a total function into `Option ℚ`.) -/
theorem amount_parser_total (s : String) :
    toNumber .absent = none
    ∧ toNumber (.str "") = none
    ∧ toNumber (.str "abc") = none
    ∧ (parseFloat (sepResolve (cleanChars s.toList)) = none → toNumber (.str s) = none) :=
  ⟨rfl, by decide, by decide, fun h => h⟩

/-- Witness for C4 at the concrete unparsable input "abc". -/
theorem amount_parser_total_witness :
    parseFloat (sepResolve (cleanChars "abc".toList)) = none
    ∧ toNumber (.str "abc") = none :=
  ⟨by decide, (amount_parser_total "abc").2.2.2 (by decide)⟩

/-- Claim C5: the Amount Reconciler fills exactly the single-missing-field
cases and nothing else: a missing paid becomes total − outstanding, a
missing outstanding becomes total − paid, an absent total is never
back-derived, and every other combination is left unchanged.  (The code
applies the rule through row-local masks, so it is row-independent by
construction: `classifyAmountsRows` maps `reconcileRow` over the rows.) -/
theorem reconciler_single_missing (t p o : ℚ) (r : Amounts) :
    reconcileRow ⟨some t, none, some o⟩ = ⟨some t, some (t - o), some o⟩
    ∧ reconcileRow ⟨some t, some p, none⟩ = ⟨some t, some p, some (t - p)⟩
    ∧ reconcileRow ⟨none, some p, some o⟩ = ⟨none, some p, some o⟩
    ∧ (reconcileRow r).total = r.total
    ∧ (r.total = none → reconcileRow r = r)
    ∧ (r.pagado = none → r.pendiente = none → reconcileRow r = r)
    ∧ (r.pagado ≠ none → r.pendiente ≠ none → reconcileRow r = r) := by
  refine ⟨rfl, rfl, rfl, reconcileRow_total r, ?_, ?_, ?_⟩ <;>
    rcases r with ⟨rt, rp, rd⟩ <;>
    rcases rt with _ | rt <;> rcases rp with _ | rp <;> rcases rd with _ | rd <;>
    simp_all <;> rfl

/-- Witness for C5: the spec's two reconciler examples, and an unchanged
row for the no-fill case. -/
theorem reconciler_single_missing_witness :
    reconcileRow ⟨some 100, none, some 40⟩ = ⟨some 100, some 60, some 40⟩
    ∧ reconcileRow ⟨none, some 50, some 50⟩ = ⟨none, some 50, some 50⟩ := by
  have h := reconciler_single_missing 100 50 40 ⟨none, some 50, some 50⟩
  refine ⟨?_, h.2.2.2.2.1 rfl⟩
  have h1 := h.1
  norm_num at h1
  exact h1

/-- Claim C8: in amount mode, a record whose total is absent appears in
none of the three output partitions. -/
theorem absent_total_excluded (rows : List Amounts) (r : Amounts)
    (h : r.total = none) :
    reconcileRow r ∉ (classifyAmountsRows rows).1
    ∧ reconcileRow r ∉ (classifyAmountsRows rows).2.1
    ∧ reconcileRow r ∉ (classifyAmountsRows rows).2.2 := by
  have ht : (reconcileRow r).total = none := (reconcileRow_total r).trans h
  rcases hr : reconcileRow r with ⟨rt, rp, rd⟩
  rw [hr] at ht
  subst ht
  refine ⟨?_, ?_, ?_⟩ <;> intro hm <;>
    simp [classifyAmountsRows, List.mem_filter, isCobrada, isEnCurso, isNoCobrada] at hm

/-- Witness for C8 at a concrete record with absent total. -/
theorem absent_total_excluded_witness :
    reconcileRow ⟨none, some 50, some 50⟩ ∉
        (classifyAmountsRows [⟨none, some 50, some 50⟩]).1
    ∧ reconcileRow ⟨none, some 50, some 50⟩ ∉
        (classifyAmountsRows [⟨none, some 50, some 50⟩]).2.1
    ∧ reconcileRow ⟨none, some 50, some 50⟩ ∉
        (classifyAmountsRows [⟨none, some 50, some 50⟩]).2.2 :=
  absent_total_excluded [⟨none, some 50, some 50⟩] ⟨none, some 50, some 50⟩ rfl

/-- Claim C2 counterexample: the Status Classifier does not decide by
substring containment.  "totalmente pagada" contains the paid term
"pagada" (the spec-side containment classifier returns Paid), but the code
classifies it Undetermined because it is not an exact member of either
vocabulary. -/
theorem status_substring_counterexample :
    specStatusClassifier "totalmente pagada" = .paid
    ∧ classifyStatusValue "totalmente pagada" = .undetermined := by
  constructor <;> decide

/-- Claim C2 amended: the Status Classifier decides by exact membership of
the normalised text in the two disjoint vocabulary sets, not by substring
containment; "no pagada" is Unpaid because it is literally a member of the
unpaid vocabulary (no negation-priority check exists or is needed), and a
text belonging to neither set is Undetermined. -/
theorem status_exact_membership (v : String) :
    (classifyStatusValue v = .paid ↔ statusKey v ∈ valoresPagadas)
    ∧ (classifyStatusValue v = .unpaid ↔ statusKey v ∈ valoresNoPagadas)
    ∧ (classifyStatusValue v = .undetermined ↔
        (statusKey v ∉ valoresPagadas ∧ statusKey v ∉ valoresNoPagadas))
    ∧ classifyStatusValue "no pagada" = .unpaid
    ∧ classifyStatusValue "pagada" = .paid
    ∧ classifyStatusValue "en trámite" = .undetermined := by
  refine ⟨?_, ?_, ?_, by decide, by decide, by decide⟩ <;>
    unfold classifyStatusValue <;>
    by_cases h1 : statusKey v ∈ valoresPagadas <;>
    by_cases h2 : statusKey v ∈ valoresNoPagadas <;>
    first
      | exact absurd h2 (fun h2 => pagadas_noPagadas_disjoint _ h1 h2)
      | simp [h1, h2]

/-- Witness for C2 at the concrete value "no pagada". -/
theorem status_exact_membership_witness :
    classifyStatusValue "no pagada" = .unpaid ↔
      statusKey "no pagada" ∈ valoresNoPagadas :=
  (status_exact_membership "no pagada").2.1

/-- Claim C10: in status mode the three buckets are an exact partition:
the bucket sizes sum to the row count, every row value belongs to some
bucket, and no value belongs to two buckets. -/
theorem status_partition (rows : List String) (v : String) (hv : v ∈ rows) :
    ((statusBuckets rows).1.length + (statusBuckets rows).2.1.length +
        (statusBuckets rows).2.2.length = rows.length)
    ∧ (v ∈ (statusBuckets rows).1 ∨ v ∈ (statusBuckets rows).2.1 ∨
        v ∈ (statusBuckets rows).2.2)
    ∧ ¬ (v ∈ (statusBuckets rows).1 ∧ v ∈ (statusBuckets rows).2.1)
    ∧ ¬ (v ∈ (statusBuckets rows).1 ∧ v ∈ (statusBuckets rows).2.2)
    ∧ ¬ (v ∈ (statusBuckets rows).2.1 ∧ v ∈ (statusBuckets rows).2.2) := by
  refine ⟨statusBuckets_length rows, ?_, ?_, ?_, ?_⟩ <;>
    simp only [statusBuckets, List.mem_filter] <;>
    cases h : classifyStatusValue v <;> simp [h, hv]

/-- Witness for C10 on a concrete three-row record set. -/
theorem status_partition_witness :
    (((statusBuckets ["pagada", "x", "no"]).1.length +
        (statusBuckets ["pagada", "x", "no"]).2.1.length +
        (statusBuckets ["pagada", "x", "no"]).2.2.length = 3)
    ∧ ("x" ∈ (statusBuckets ["pagada", "x", "no"]).1 ∨
        "x" ∈ (statusBuckets ["pagada", "x", "no"]).2.1 ∨
        "x" ∈ (statusBuckets ["pagada", "x", "no"]).2.2)
    ∧ ¬ ("x" ∈ (statusBuckets ["pagada", "x", "no"]).1 ∧
        "x" ∈ (statusBuckets ["pagada", "x", "no"]).2.1)
    ∧ ¬ ("x" ∈ (statusBuckets ["pagada", "x", "no"]).1 ∧
        "x" ∈ (statusBuckets ["pagada", "x", "no"]).2.2)
    ∧ ¬ ("x" ∈ (statusBuckets ["pagada", "x", "no"]).2.1 ∧
        "x" ∈ (statusBuckets ["pagada", "x", "no"]).2.2)) :=
  status_partition ["pagada", "x", "no"] "x" (by decide)

/-- Claim C6 counterexample: the spec's minimum vocabulary is not honoured
by the code.  "paid" should classify Paid and "vencida", "unpaid" should
classify Unpaid, but none of them is in the code's vocabulary sets, so all
three are Undetermined. -/
theorem vocabulary_counterexample :
    classifyStatusValue "paid" = .undetermined
    ∧ classifyStatusValue "vencida" = .undetermined
    ∧ classifyStatusValue "unpaid" = .undetermined := by
  refine ⟨?_, ?_, ?_⟩ <;> decide

/-- Claim C6 amended: the vocabulary the code actually honours.  Each of
{pagada, pagado, cobrada, cobrado, si, sí, true, 1, yes, y} classifies
Paid; each of {"no pagada", "no pagado", impaga, pendiente, no, n, false,
0, ""} classifies Unpaid; the spec's extra terms (paid, no cobrada, no
cobrado, impago, vencida, atrasada, unpaid) classify Undetermined. -/
theorem vocabulary_amended :
    classifyStatusValue "pagada" = .paid
    ∧ classifyStatusValue "pagado" = .paid
    ∧ classifyStatusValue "cobrada" = .paid
    ∧ classifyStatusValue "cobrado" = .paid
    ∧ classifyStatusValue "si" = .paid
    ∧ classifyStatusValue "sí" = .paid
    ∧ classifyStatusValue "true" = .paid
    ∧ classifyStatusValue "1" = .paid
    ∧ classifyStatusValue "yes" = .paid
    ∧ classifyStatusValue "y" = .paid
    ∧ classifyStatusValue "no pagada" = .unpaid
    ∧ classifyStatusValue "no pagado" = .unpaid
    ∧ classifyStatusValue "impaga" = .unpaid
    ∧ classifyStatusValue "pendiente" = .unpaid
    ∧ classifyStatusValue "no" = .unpaid
    ∧ classifyStatusValue "n" = .unpaid
    ∧ classifyStatusValue "false" = .unpaid
    ∧ classifyStatusValue "0" = .unpaid
    ∧ classifyStatusValue "" = .unpaid
    ∧ classifyStatusValue "paid" = .undetermined
    ∧ classifyStatusValue "no cobrada" = .undetermined
    ∧ classifyStatusValue "no cobrado" = .undetermined
    ∧ classifyStatusValue "impago" = .undetermined
    ∧ classifyStatusValue "vencida" = .undetermined
    ∧ classifyStatusValue "atrasada" = .undetermined
    ∧ classifyStatusValue "unpaid" = .undetermined := by
  repeat' constructor

end AppFacturas

namespace AppFacturas

lemma beq_false_of_not {b : Bool} (h : ¬ b = true) : b = false := by
  cases b
  · rfl
  · exact absurd rfl h

lemma isCobrada_some (t p : ℚ) (rd : Option ℚ) :
    isCobrada ⟨some t, some p, rd⟩ = true ↔ t - eps ≤ p := by
  simp [isCobrada]

lemma isEnCurso_some (t p : ℚ) (rd : Option ℚ) :
    isEnCurso ⟨some t, some p, rd⟩ = true ↔ (eps < p ∧ p < t - eps) := by
  simp [isEnCurso]

lemma isNoCobrada_some (t p : ℚ) (rd : Option ℚ) :
    isNoCobrada ⟨some t, some p, rd⟩ = true ↔ p ≤ eps := by
  simp [isNoCobrada]

/-- Claim C1 counterexample: the three amount-mode predicates are not
mutually exclusive as claimed.  A record with total = 0 and paid = 0
satisfies both Paid (0 ≥ 0 − ε) and Unpaid (0 ≤ ε). -/
theorem amount_buckets_overlap :
    isCobrada ⟨some 0, some 0, none⟩ = true
    ∧ isNoCobrada ⟨some 0, some 0, none⟩ = true := by
  constructor <;> simp [isCobrada, isNoCobrada, eps]

/-- Claim C1 amended: over records with a present total, the three
predicates are jointly exhaustive; PartiallyPaid excludes the other two
unconditionally; and when total > 2ε (which includes every record of the
spec's total = 100 sweep) exactly one of the three predicates holds.  The
overlap forced by the counterexample (total ≤ 2ε, where Paid and Unpaid
can hold together) is the only failure of exclusivity. -/
theorem amount_buckets_amended (r : Amounts) (t : ℚ) (ht : r.total = some t) :
    (isCobrada r = true ∨ isEnCurso r = true ∨ isNoCobrada r = true)
    ∧ (isEnCurso r = true → isCobrada r = false ∧ isNoCobrada r = false)
    ∧ (2 * eps < t →
        (isCobrada r = true ∧ isEnCurso r = false ∧ isNoCobrada r = false)
        ∨ (isCobrada r = false ∧ isEnCurso r = true ∧ isNoCobrada r = false)
        ∨ (isCobrada r = false ∧ isEnCurso r = false ∧ isNoCobrada r = true)) := by
  rcases r with ⟨rt, rp, rd⟩
  have h : rt = some t := ht
  subst h
  rcases rp with _ | p
  · exact ⟨Or.inr (Or.inr rfl), by simp [isEnCurso],
      fun _ => Or.inr (Or.inr (by simp [isCobrada, isEnCurso, isNoCobrada]))⟩
  · have hc := isCobrada_some t p rd
    have he := isEnCurso_some t p rd
    have hn := isNoCobrada_some t p rd
    refine ⟨?_, ?_, ?_⟩
    · rcases le_or_lt p eps with h1 | h1
      · exact Or.inr (Or.inr (hn.mpr h1))
      · rcases lt_or_le p (t - eps) with h2 | h2
        · exact Or.inr (Or.inl (he.mpr ⟨h1, h2⟩))
        · exact Or.inl (hc.mpr h2)
    · intro hE
      obtain ⟨h1, h2⟩ := he.mp hE
      exact ⟨beq_false_of_not (fun hC => by have := hc.mp hC; linarith),
        beq_false_of_not (fun hN => by have := hn.mp hN; linarith)⟩
    · intro hT
      rcases le_or_lt p eps with h1 | h1
      · refine Or.inr (Or.inr ⟨?_, ?_, hn.mpr h1⟩)
        · exact beq_false_of_not (fun hC => by have := hc.mp hC; linarith)
        · exact beq_false_of_not (fun hE => by have := (he.mp hE).1; linarith)
      · rcases lt_or_le p (t - eps) with h2 | h2
        · refine Or.inr (Or.inl ⟨?_, he.mpr ⟨h1, h2⟩, ?_⟩)
          · exact beq_false_of_not (fun hC => by have := hc.mp hC; linarith)
          · exact beq_false_of_not (fun hN => by have := hn.mp hN; linarith)
        · refine Or.inl ⟨hc.mpr h2, ?_, ?_⟩
          · exact beq_false_of_not (fun hE => by have := (he.mp hE).2; linarith)
          · exact beq_false_of_not (fun hN => by have := hn.mp hN; linarith)

/-- Witness for C1 at the spec's partially-paid example
(total = 100, paid = 50): applying the amended theorem and discharging
both hypotheses yields the exactly-one disjunction. -/
theorem amount_buckets_amended_witness :
    (isCobrada ⟨some 100, some 50, none⟩ = true
      ∧ isEnCurso ⟨some 100, some 50, none⟩ = false
      ∧ isNoCobrada ⟨some 100, some 50, none⟩ = false)
    ∨ (isCobrada ⟨some 100, some 50, none⟩ = false
      ∧ isEnCurso ⟨some 100, some 50, none⟩ = true
      ∧ isNoCobrada ⟨some 100, some 50, none⟩ = false)
    ∨ (isCobrada ⟨some 100, some 50, none⟩ = false
      ∧ isEnCurso ⟨some 100, some 50, none⟩ = false
      ∧ isNoCobrada ⟨some 100, some 50, none⟩ = true) :=
  (amount_buckets_amended ⟨some 100, some 50, none⟩ 100 rfl).2.2
    (by norm_num [eps])

/-- Claim C7: mode selection is in fixed order.  Amount mode is entered
iff a total column resolves; with no total column but a status-like
column, status mode is entered; with neither, the flow yields the explicit
`noBasis` outcome (the code's `st.error` + `st.stop`), a distinct
constructor rather than an empty result. -/
theorem mode_selection (cols : List String) (recs : List RawRecord) :
    ((∃ p, classifyFlow cols recs = .amounts p) ↔
        (findCol totalCandidates cols).isSome)
    ∧ (findCol totalCandidates cols = none → statusCandidateCols cols ≠ [] →
        ∃ c b, classifyFlow cols recs = .status c b)
    ∧ (classifyFlow cols recs = .noBasis ↔
        (findCol totalCandidates cols = none ∧ statusCandidateCols cols = [])) := by
  cases hT : findCol totalCandidates cols with
  | some ct =>
    refine ⟨?_, by simp [hT], ?_⟩ <;>
      simp [classifyFlow, classifyByAmounts, classifyByStatus, hT]
  | none =>
    cases hS : statusCandidateCols cols with
    | nil =>
      refine ⟨?_, by simp [hS], ?_⟩ <;>
        simp [classifyFlow, classifyByAmounts, classifyByStatus, hT, hS]
    | cons c rest =>
      refine ⟨?_, ?_, ?_⟩ <;>
        simp [classifyFlow, classifyByAmounts, classifyByStatus, hT, hS]

/-- Witness for C7: a schema with a total column enters amount mode, a
schema with only a status column enters status mode, and a schema with
neither yields the explicit failure. -/
theorem mode_selection_witness :
    (∃ p, classifyFlow ["total"] [] = .amounts p)
    ∧ (∃ c b, classifyFlow ["estado"] [] = .status c b)
    ∧ classifyFlow ["fecha"] [] = .noBasis :=
  ⟨(mode_selection ["total"] []).1.mpr (by decide),
   (mode_selection ["estado"] []).2.1 (by decide) (by decide),
   (mode_selection ["fecha"] []).2.2.mpr ⟨by decide, by decide⟩⟩

/-- Claim C9: the Document Field Extractor recovers
{invoiceNumber = "A-001", client = "ACME", status = "Unpaid",
amount = 1234.56} from the example text, and each field independently
falls back to its default on a text where no pattern matches. -/
theorem document_field_extraction :
    (extractInvoice exampleDoc).invoiceNumber = "A-001"
    ∧ (extractInvoice exampleDoc).client = "ACME"
    ∧ (extractInvoice exampleDoc).status = "Unpaid"
    ∧ (extractInvoice exampleDoc).amount = 123456 / 100
    ∧ (extractInvoice exampleDoc).source = "document"
    ∧ (extractInvoice "hola mundo").invoiceNumber = "UNKNOWN"
    ∧ (extractInvoice "hola mundo").client = "UNKNOWN"
    ∧ (extractInvoice "hola mundo").status = "Undetermined"
    ∧ (extractInvoice "hola mundo").amount = 0 := by
  refine ⟨by decide, by decide, by decide, ?_, rfl, by decide, by decide, by decide, ?_⟩
  · have hc : amountCapture (splitOnNl exampleDoc.toList) = some "1.234,56" := by decide
    show (match amountCapture (splitOnNl exampleDoc.toList) with
      | none => (0 : ℚ)
      | some s => (toNumber (.str s)).getD 0) = (123456 / 100 : ℚ)
    rw [hc]
    simp [toNumber, parseFloat, headIsMinus, splitDot, sepResolve, cleanChars, keepChar,
      lastIndexOf, intVal, fracVal, String.toList, String.data]
    norm_num
  · have hc : amountCapture (splitOnNl "hola mundo".toList) = none := by decide
    show (match amountCapture (splitOnNl "hola mundo".toList) with
      | none => (0 : ℚ)
      | some s => (toNumber (.str s)).getD 0) = (0 : ℚ)
    rw [hc]

end AppFacturas

namespace AppFacturas

lemma all_digit_mem {u : List Char} (h : u.all Char.isDigit = true) {c : Char}
    (hc : c ∈ u) : c.isDigit = true :=
  List.all_eq_true.mp h c hc

lemma not_mem_digits {u : List Char} (h : u.all Char.isDigit = true) {c : Char}
    (hc : c.isDigit = false) : c ∉ u := fun hm => by
  have := all_digit_mem h hm
  rw [hc] at this
  exact Bool.false_ne_true this

lemma filter_eq_self_of (p : Char → Bool) :
    ∀ l : List Char, (∀ c ∈ l, p c = true) → l.filter p = l
  | [], _ => rfl
  | c :: t, h => by
    have ht := filter_eq_self_of p t (fun x hx => h x (List.mem_cons_of_mem c hx))
    simp [List.filter_cons, h c (List.mem_cons_self c t), ht]

lemma map_eq_self_of (f : Char → Char) :
    ∀ l : List Char, (∀ c ∈ l, f c = c) → l.map f = l
  | [], _ => rfl
  | c :: t, h => by
    have ht := map_eq_self_of f t (fun x hx => h x (List.mem_cons_of_mem c hx))
    simp [List.map_cons, h c (List.mem_cons_self c t), ht]

lemma clean_digits_keep {l : List Char} (h : ∀ c ∈ l, keepChar c = true) :
    cleanChars l = l :=
  filter_eq_self_of keepChar l h

lemma keepChar_of_digit {c : Char} (h : c.isDigit = true) : keepChar c = true := by
  simp [keepChar, h]

lemma filter_ne_of_digits {u : List Char} (h : u.all Char.isDigit = true)
    (x : Char) (hx : x.isDigit = false) : u.filter (fun c => c ≠ x) = u :=
  filter_eq_self_of _ u (fun c hc => by
    have hd := all_digit_mem h hc
    simp
    intro he
    rw [he, hx] at hd
    exact Bool.false_ne_true hd)

lemma map_c2d_of_digits {u : List Char} (h : u.all Char.isDigit = true) :
    u.map (fun c => if c = ',' then '.' else c) = u :=
  map_eq_self_of _ u (fun c hc => by
    have hd := all_digit_mem h hc
    have : c ≠ ',' := fun he => by
      rw [he] at hd
      simp at hd
    simp [this])

lemma lastIndexOf_eq_none {c : Char} : ∀ {l : List Char}, c ∉ l →
    lastIndexOf c l = none
  | [], _ => rfl
  | x :: t, h => by
    have ht : c ∉ t := fun hm => h (List.mem_cons_of_mem x hm)
    have hx : x ≠ c := fun he => h (he ▸ List.mem_cons_self x t)
    simp [lastIndexOf, lastIndexOf_eq_none ht, hx]

lemma lastIndexOf_append_right {c : Char} {b : List Char} {i : ℕ}
    (h : lastIndexOf c b = some i) :
    ∀ a : List Char, lastIndexOf c (a ++ b) = some (a.length + i)
  | [] => by simpa using h
  | x :: t => by
    have ht := lastIndexOf_append_right h t
    simp [lastIndexOf, ht, List.length_cons]
    omega

lemma lastIndexOf_cons_self {c : Char} {t : List Char} (h : c ∉ t) :
    lastIndexOf c (c :: t) = some 0 := by
  simp [lastIndexOf, lastIndexOf_eq_none h]

lemma splitDot_of_no_dot : ∀ {l : List Char}, '.' ∉ l → splitDot l = (l, none)
  | [], _ => rfl
  | c :: t, h => by
    have ht : '.' ∉ t := fun hm => h (List.mem_cons_of_mem c hm)
    have hc : c ≠ '.' := fun he => h (he ▸ List.mem_cons_self c t)
    simp [splitDot, hc, splitDot_of_no_dot ht]

lemma splitDot_append {a : List Char} (h : '.' ∉ a) :
    ∀ b : List Char, splitDot (a ++ '.' :: b) = (a, some b) := by
  induction a with
  | nil => intro b; simp [splitDot]
  | cons c t ih =>
    intro b
    have ht : '.' ∉ t := fun hm => h (List.mem_cons_of_mem c hm)
    have hc : c ≠ '.' := fun he => h (he ▸ List.mem_cons_self c t)
    simp [splitDot, hc, ih ht b]

lemma parseFloat_digits_dot (a b : List Char)
    (ha : a.all Char.isDigit = true) (hb : b.all Char.isDigit = true)
    (hne : a ≠ [] ∨ b ≠ []) :
    parseFloat (a ++ '.' :: b) = some (intVal a + fracVal b) := by
  have hmin : headIsMinus (a ++ '.' :: b) = false := by
    cases a with
    | nil => simp [headIsMinus]
    | cons d t =>
      have hd : d.isDigit = true := all_digit_mem ha (List.mem_cons_self d t)
      have : d ≠ '-' := fun he => by
        rw [he] at hd
        simp at hd
      simp [headIsMinus, this]
  have hsplit : splitDot (a ++ '.' :: b) = (a, some b) :=
    splitDot_append (not_mem_digits ha (by decide)) b
  have hall : (a ++ b).all Char.isDigit = true := by
    rw [List.all_append, ha, hb]
    rfl
  have hne' : (a.isEmpty && b.isEmpty) = false := by
    rcases hne with h | h
    · cases a with
      | nil => exact absurd rfl h
      | cons x t => rfl
    · cases b with
      | nil => exact absurd rfl h
      | cons x t => simp [List.isEmpty]
  unfold parseFloat
  rw [hmin]
  simp only [Bool.false_eq_true, if_false, hsplit, hall, hne', Bool.not_false,
    Bool.and_true, Bool.true_and, if_true]

end AppFacturas

namespace AppFacturas

lemma lastIndexOf_append_left {c : Char} {b : List Char} (hb : c ∉ b) :
    ∀ a : List Char, lastIndexOf c (a ++ b) = lastIndexOf c a
  | [] => by simp only [List.nil_append, lastIndexOf_eq_none hb, lastIndexOf]
  | x :: t => by simp [lastIndexOf, lastIndexOf_append_left hb t]

lemma toNumber_european (u v w : List Char)
    (hu : u.all Char.isDigit = true) (hv : v.all Char.isDigit = true)
    (hw : w.all Char.isDigit = true) (hu0 : u ≠ []) :
    toNumber (.str ⟨u ++ '.' :: (v ++ ',' :: w)⟩) =
      some (intVal (u ++ v) + fracVal w) := by
  have hkeep : ∀ c ∈ u ++ '.' :: (v ++ ',' :: w), keepChar c = true := by
    intro c hc
    rcases List.mem_append.mp hc with hc | hc
    · exact keepChar_of_digit (all_digit_mem hu hc)
    · rcases List.mem_cons.mp hc with rfl | hc
      · rfl
      · rcases List.mem_append.mp hc with hc | hc
        · exact keepChar_of_digit (all_digit_mem hv hc)
        · rcases List.mem_cons.mp hc with rfl | hc
          · rfl
          · exact keepChar_of_digit (all_digit_mem hw hc)
  have hclean : cleanChars (u ++ '.' :: (v ++ ',' :: w)) = u ++ '.' :: (v ++ ',' :: w) :=
    clean_digits_keep hkeep
  have hcomma_w : (',' : Char) ∉ w := not_mem_digits hw (by decide)
  have hdot_v : ('.' : Char) ∉ v := not_mem_digits hv (by decide)
  have hdot_w : ('.' : Char) ∉ w := not_mem_digits hw (by decide)
  have hli_c : lastIndexOf ',' (u ++ '.' :: (v ++ ',' :: w)) =
      some ((u ++ '.' :: v).length + 0) := by
    have h2 := lastIndexOf_append_right (lastIndexOf_cons_self hcomma_w) (u ++ '.' :: v)
    rw [List.append_assoc, List.cons_append] at h2
    exact h2
  have hli_d : lastIndexOf '.' (u ++ '.' :: (v ++ ',' :: w)) = some (u.length + 0) := by
    have h1 : lastIndexOf '.' ('.' :: (v ++ ',' :: w)) = some 0 := by
      refine lastIndexOf_cons_self ?_
      intro hm
      rcases List.mem_append.mp hm with hm | hm
      · exact hdot_v hm
      · rcases List.mem_cons.mp hm with he | hm
        · exact absurd he (by decide)
        · exact hdot_w hm
    exact lastIndexOf_append_right h1 u
  have hmem_c : (',' : Char) ∈ u ++ '.' :: (v ++ ',' :: w) := by simp
  have hmem_d : ('.' : Char) ∈ u ++ '.' :: (v ++ ',' :: w) := by simp
  have hsep : sepResolve (u ++ '.' :: (v ++ ',' :: w)) = u ++ (v ++ '.' :: w) := by
    unfold sepResolve
    rw [if_pos ⟨hmem_c, hmem_d⟩, hli_c, hli_d]
    rw [if_pos (by
      simp only [Option.getD_some, List.length_append, List.length_cons]
      omega)]
    have hf : (u ++ '.' :: (v ++ ',' :: w)).filter (fun c => c ≠ '.') =
        u ++ (v ++ ',' :: w) := by
      simp only [List.filter_append, List.filter_cons]
      rw [filter_ne_of_digits hu '.' (by decide), filter_ne_of_digits hv '.' (by decide),
        filter_ne_of_digits hw '.' (by decide)]
      simp
    rw [hf]
    simp only [List.map_append, List.map_cons]
    rw [map_c2d_of_digits hu, map_c2d_of_digits hv, map_c2d_of_digits hw]
    simp
  show parseFloat (sepResolve (cleanChars (u ++ '.' :: (v ++ ',' :: w)))) = _
  rw [hclean, hsep]
  have hres := parseFloat_digits_dot (u ++ v) w
    (by rw [List.all_append, hu, hv]; rfl) hw (Or.inl (by simp [hu0]))
  rw [List.append_assoc] at hres
  exact hres

lemma toNumber_us (u v w : List Char)
    (hu : u.all Char.isDigit = true) (hv : v.all Char.isDigit = true)
    (hw : w.all Char.isDigit = true) (hu0 : u ≠ []) :
    toNumber (.str ⟨u ++ ',' :: (v ++ '.' :: w)⟩) =
      some (intVal (u ++ v) + fracVal w) := by
  have hkeep : ∀ c ∈ u ++ ',' :: (v ++ '.' :: w), keepChar c = true := by
    intro c hc
    rcases List.mem_append.mp hc with hc | hc
    · exact keepChar_of_digit (all_digit_mem hu hc)
    · rcases List.mem_cons.mp hc with rfl | hc
      · rfl
      · rcases List.mem_append.mp hc with hc | hc
        · exact keepChar_of_digit (all_digit_mem hv hc)
        · rcases List.mem_cons.mp hc with rfl | hc
          · rfl
          · exact keepChar_of_digit (all_digit_mem hw hc)
  have hclean : cleanChars (u ++ ',' :: (v ++ '.' :: w)) = u ++ ',' :: (v ++ '.' :: w) :=
    clean_digits_keep hkeep
  have hcomma_v : (',' : Char) ∉ v := not_mem_digits hv (by decide)
  have hcomma_w : (',' : Char) ∉ w := not_mem_digits hw (by decide)
  have hdot_w : ('.' : Char) ∉ w := not_mem_digits hw (by decide)
  have hli_c : lastIndexOf ',' (u ++ ',' :: (v ++ '.' :: w)) = some (u.length + 0) := by
    have h1 : lastIndexOf ',' (',' :: (v ++ '.' :: w)) = some 0 := by
      refine lastIndexOf_cons_self ?_
      intro hm
      rcases List.mem_append.mp hm with hm | hm
      · exact hcomma_v hm
      · rcases List.mem_cons.mp hm with he | hm
        · exact absurd he (by decide)
        · exact hcomma_w hm
    exact lastIndexOf_append_right h1 u
  have hli_d : lastIndexOf '.' (u ++ ',' :: (v ++ '.' :: w)) =
      some ((u ++ ',' :: v).length + 0) := by
    have h2 := lastIndexOf_append_right (lastIndexOf_cons_self hdot_w) (u ++ ',' :: v)
    rw [List.append_assoc, List.cons_append] at h2
    exact h2
  have hmem_c : (',' : Char) ∈ u ++ ',' :: (v ++ '.' :: w) := by simp
  have hmem_d : ('.' : Char) ∈ u ++ ',' :: (v ++ '.' :: w) := by simp
  have hsep : sepResolve (u ++ ',' :: (v ++ '.' :: w)) = u ++ (v ++ '.' :: w) := by
    unfold sepResolve
    rw [if_pos ⟨hmem_c, hmem_d⟩, hli_c, hli_d]
    rw [if_neg (by
      simp only [Option.getD_some, List.length_append, List.length_cons]
      omega)]
    simp only [List.filter_append, List.filter_cons]
    rw [filter_ne_of_digits hu ',' (by decide), filter_ne_of_digits hv ',' (by decide),
      filter_ne_of_digits hw ',' (by decide)]
    simp
  show parseFloat (sepResolve (cleanChars (u ++ ',' :: (v ++ '.' :: w)))) = _
  rw [hclean, hsep]
  have hres := parseFloat_digits_dot (u ++ v) w
    (by rw [List.all_append, hu, hv]; rfl) hw (Or.inl (by simp [hu0]))
  rw [List.append_assoc] at hres
  exact hres

lemma toNumber_comma_only (u w : List Char)
    (hu : u.all Char.isDigit = true) (hw : w.all Char.isDigit = true)
    (hu0 : u ≠ []) :
    toNumber (.str ⟨u ++ ',' :: w⟩) = some (intVal u + fracVal w) := by
  have hkeep : ∀ c ∈ u ++ ',' :: w, keepChar c = true := by
    intro c hc
    rcases List.mem_append.mp hc with hc | hc
    · exact keepChar_of_digit (all_digit_mem hu hc)
    · rcases List.mem_cons.mp hc with rfl | hc
      · rfl
      · exact keepChar_of_digit (all_digit_mem hw hc)
  have hclean : cleanChars (u ++ ',' :: w) = u ++ ',' :: w :=
    clean_digits_keep hkeep
  have hdot : ('.' : Char) ∉ u ++ ',' :: w := by
    intro hm
    rcases List.mem_append.mp hm with hm | hm
    · exact not_mem_digits hu (by decide) hm
    · rcases List.mem_cons.mp hm with he | hm
      · exact absurd he (by decide)
      · exact not_mem_digits hw (by decide) hm
  have hmem_c : (',' : Char) ∈ u ++ ',' :: w := by simp
  have hsep : sepResolve (u ++ ',' :: w) = u ++ '.' :: w := by
    unfold sepResolve
    rw [if_neg (fun h => hdot h.2), if_pos hmem_c]
    simp only [List.map_append, List.map_cons]
    rw [map_c2d_of_digits hu, map_c2d_of_digits hw]
    simp
  show parseFloat (sepResolve (cleanChars (u ++ ',' :: w))) = _
  rw [hclean, hsep]
  exact parseFloat_digits_dot u w hu hw (Or.inl hu0)

/-- Claim C3: separator disambiguation.  For digit groups `u`, `v`, `w`:
when both comma and period are present the later separator is the decimal
point and the other is removed as a thousands separator (both the European
`u.v,w` and the US `u,v.w` layout parse to the same value); a lone comma
is a decimal point; consequently parse("1.234,56") = parse("1,234.56")
= 1234.56 and parse("1,23") = 1.23. -/
theorem separator_disambiguation (u v w : List Char)
    (hu : u.all Char.isDigit = true) (hv : v.all Char.isDigit = true)
    (hw : w.all Char.isDigit = true) (hu0 : u ≠ []) :
    toNumber (.str ⟨u ++ '.' :: (v ++ ',' :: w)⟩) = some (intVal (u ++ v) + fracVal w)
    ∧ toNumber (.str ⟨u ++ ',' :: (v ++ '.' :: w)⟩) = some (intVal (u ++ v) + fracVal w)
    ∧ toNumber (.str ⟨u ++ ',' :: w⟩) = some (intVal u + fracVal w)
    ∧ toNumber (.str "1.234,56") = some (123456 / 100)
    ∧ toNumber (.str "1,234.56") = some (123456 / 100)
    ∧ toNumber (.str "1,23") = some (123 / 100) := by
  refine ⟨toNumber_european u v w hu hv hw hu0, toNumber_us u v w hu hv hw hu0,
    toNumber_comma_only u w hu hw hu0, ?_, ?_, ?_⟩ <;>
    · simp [toNumber, parseFloat, headIsMinus, splitDot, sepResolve, cleanChars,
        keepChar, lastIndexOf, intVal, fracVal, String.toList, String.data]
      norm_num

/-- Witness for C3 at the spec's own example groups 1 / 234 / 56. -/
theorem separator_disambiguation_witness :
    toNumber (.str ⟨['1'] ++ '.' :: (['2', '3', '4'] ++ ',' :: ['5', '6'])⟩) =
      some (intVal (['1'] ++ ['2', '3', '4']) + fracVal ['5', '6']) :=
  (separator_disambiguation ['1'] ['2', '3', '4'] ['5', '6']
    (by decide) (by decide) (by decide) (by decide)).1

end AppFacturas
